import Mathlib

/-!
# Verification of the Advanced File Encrypter core

Shallow embedding of the repository's core:

* `src/src/crypto/key-derivation.ts` — PBKDF2 key derivation (Web Crypto),
  modelled as a deterministic record of its derivation inputs;
* `src/src/crypto/aes-gcm.ts` — AES-256-GCM, modelled as an idealized AEAD:
  a ciphertext byte is a symbolic `Sym.ct` carrying the plaintext, key and IV
  that produced it, and decryption succeeds exactly when the ciphertext is the
  unmodified encryption output under the same key and IV;
* `src/src/crypto/index.ts` — `encryptText` / `decryptText` and the
  `[IV][Salt][Ciphertext]` packing; `btoa`/`atob` (browser built-ins) are
  modelled as the bijection between byte lists and the `Base64` wrapper;
* the `.locked` container codec (`encode`, `decode`, `parse`,
  `isEncryptedFile`, `needsMigration`) — JSON serialization of the well-typed
  container is modelled as the identity on the structured value; a separate
  loosely-typed JSON model (`Loose` namespace) captures what `parse` actually
  validates;
* `SessionManager` from `src/src/services/session-manager.ts`, with JS `Map`
  modelled as an insertion-ordered association list and `Date.now()` passed
  explicitly as `now`.

Randomness (`crypto.getRandomValues`) is passed in explicitly: `generateIv`
and `generateSalt` take the random bytes the system RNG would return; the
source guarantees the returned array has exactly the requested length, which
appears as a length hypothesis in the theorems.
-/

namespace AFE

/-! ## Crypto model -/

/-- Derived AES-GCM key, modelled as the (deterministic) inputs of
`derivePbkdf2Key` in `src/src/crypto/key-derivation.ts`: PBKDF2 is a
deterministic function, so two keys coincide exactly when all derivation
inputs coincide. -/
structure CryptoKeyData where
  password : String
  salt : List Nat
  iterations : Nat
  hash : String
  keyBits : Nat
  extractable : Bool
deriving DecidableEq, Repr

/-- Derive an AES-GCM key from a password using PBKDF2
(`derivePbkdf2Key` in `key-derivation.ts`). Deterministic by construction. -/
def derivePbkdf2Key (password : String) (salt : List Nat) (iterations : Nat)
    (hash : String) (keyBits : Nat) (extractable : Bool) : CryptoKeyData :=
  ⟨password, salt, iterations, hash, keyBits, extractable⟩

/-- Byte of a packed data blob: either a plain (random or structural) byte, or
the `idx`-th byte of an idealized AES-GCM ciphertext produced from `pt` under
`key` and `iv`. -/
inductive Sym where
  | raw (n : Nat)
  | ct (pt : String) (key : CryptoKeyData) (iv : List Nat) (idx : Nat)
deriving DecidableEq, Repr

/-- Encrypt plaintext using AES-GCM (`aesGcmEncrypt` in `aes-gcm.ts`).
Idealized model of `crypto.subtle.encrypt`: the ciphertext has
`utf8ByteSize + 16` bytes (16-byte GCM tag), each a symbolic byte recording
the encryption inputs. -/
def aesGcmEncrypt (plaintext : String) (key : CryptoKeyData) (iv : List Nat) :
    List Sym :=
  Sym.ct plaintext key iv 0 ::
    (List.range (plaintext.utf8ByteSize + 15)).map
      (fun i => Sym.ct plaintext key iv (i + 1))

/-- Decrypt ciphertext using AES-GCM (`aesGcmDecrypt` in `aes-gcm.ts`).
Idealized model of `crypto.subtle.decrypt`: succeeds exactly when the
ciphertext is an unmodified `aesGcmEncrypt` output under the same key and IV;
any mismatch (wrong key, wrong IV, tampered bytes) is the authentication
failure the source maps to `null`. -/
def aesGcmDecrypt (ciphertext : List Sym) (key : CryptoKeyData)
    (iv : List Nat) : Option String :=
  match ciphertext with
  | Sym.ct pt k i _ :: _ =>
    if ciphertext = aesGcmEncrypt pt k i ∧ k = key ∧ i = iv then some pt
    else none
  | _ => none

/-- Key-derivation sub-record of `EncryptionParams`
(`src/src/crypto/interfaces.ts`). -/
structure KeyDerivationParams where
  function : String
  hash : String
  iterations : Nat
  saltLength : Nat
deriving DecidableEq, Repr

/-- Parameters describing how data was encrypted
(`EncryptionParams` in `src/src/crypto/interfaces.ts`). -/
structure EncryptionParams where
  algorithm : String
  keySize : Nat
  ivLength : Nat
  keyDerivation : KeyDerivationParams
deriving DecidableEq, Repr

/-- Default encryption parameters for new files
(`DEFAULT_ENCRYPTION_PARAMS` in `src/src/crypto/index.ts`). -/
def DEFAULT_ENCRYPTION_PARAMS : EncryptionParams :=
  { algorithm := "AES-GCM"
    keySize := 256
    ivLength := 16
    keyDerivation :=
      { function := "PBKDF2"
        hash := "SHA-512"
        iterations := 210000
        saltLength := 16 } }

/-- Key derivation of `PasswordKeyProvider.deriveKey`
(`src/unnamed/part_001`): PBKDF2 with iteration count, hash and key size
taken from the params. -/
def PasswordKeyProvider.deriveKey (password : String) (salt : List Nat)
    (params : EncryptionParams) (extractable : Bool) : CryptoKeyData :=
  derivePbkdf2Key password salt params.keyDerivation.iterations
    params.keyDerivation.hash params.keySize extractable

/-- Generate cryptographically random bytes for salt (`generateSalt` in
`key-derivation.ts`); the system RNG output is the explicit `entropy`
argument, of exactly the requested length. -/
def generateSalt (_length : Nat) (entropy : List Nat) : List Nat := entropy

/-- Generate cryptographically random bytes for IV (`generateIv` in
`key-derivation.ts`); the system RNG output is the explicit `entropy`
argument, of exactly the requested length. -/
def generateIv (_length : Nat) (entropy : List Nat) : List Nat := entropy

/-- Base64 string, modelled as the byte list it denotes: `btoa`/`atob` (used
by `uint8ArrayToBase64`/`base64ToUint8Array` in `src/src/crypto/index.ts`)
form a bijection between byte lists and base64 strings. -/
structure Base64 where
  bytes : List Sym
deriving DecidableEq, Repr

/-- Byte-list to base64 conversion (`uint8ArrayToBase64` in
`src/src/crypto/index.ts`). -/
def uint8ArrayToBase64 (bytes : List Sym) : Base64 := ⟨bytes⟩

/-- Base64 to byte-list conversion (`base64ToUint8Array` in
`src/src/crypto/index.ts`). -/
def base64ToUint8Array (b : Base64) : List Sym := b.bytes

/-- Result of an encryption operation (`EncryptResult` in
`src/src/crypto/interfaces.ts`). -/
structure EncryptResult where
  data : Base64
  params : EncryptionParams
deriving DecidableEq, Repr

/-- Project the plain bytes out of a blob slice. The source operates on raw
`Uint8Array` slices; in the symbolic model a slice that contains ciphertext
symbols where the IV/salt bytes should be corresponds to a salt/IV that makes
the subsequent AES-GCM authentication fail, so such slices yield `none` and
the caller reports authentication failure. -/
def symBytes : List Sym → Option (List Nat)
  | [] => some []
  | Sym.raw n :: rest => (symBytes rest).map (fun l => n :: l)
  | _ => none

/-- Encrypt plaintext with a password (`encryptText` in
`src/src/crypto/index.ts`): generate IV and salt from fresh randomness,
derive a non-extractable key, AES-GCM encrypt, pack `[IV][Salt][Ciphertext]`
and base64-encode. -/
def encryptText (plaintext password : String) (params : EncryptionParams)
    (ivEntropy saltEntropy : List Nat) : EncryptResult :=
  let iv := generateIv params.ivLength ivEntropy
  let salt := generateSalt params.keyDerivation.saltLength saltEntropy
  let key := PasswordKeyProvider.deriveKey password salt params false
  let ciphertext := aesGcmEncrypt plaintext key iv
  let packed := iv.map Sym.raw ++ salt.map Sym.raw ++ ciphertext
  { data := uint8ArrayToBase64 packed, params := params }

/-- Decrypt base64-encoded data with a password (`decryptText` in
`src/src/crypto/index.ts`): unpack `[IV][Salt][Ciphertext]` at the offsets
given by the container's own params, re-derive the key, decrypt; `none`
models the source's `null` (undersized blob or authentication failure). -/
def decryptText (base64Data : Base64) (password : String)
    (params : EncryptionParams) : Option String :=
  let packed := base64ToUint8Array base64Data
  let ivLen := params.ivLength
  let saltLen := params.keyDerivation.saltLength
  if packed.length < ivLen + saltLen + 1 then none
  else
    let iv := packed.take ivLen
    let salt := (packed.drop ivLen).take saltLen
    let ciphertext := packed.drop (ivLen + saltLen)
    match symBytes iv, symBytes salt with
    | some ivB, some saltB =>
      let key := PasswordKeyProvider.deriveKey password saltB params false
      aesGcmDecrypt ciphertext key ivB
    | _, _ => none

/-! ## Container codec (`.locked` file format) -/

/-- Legacy format tag (`LEGACY_FEP_FORMAT`). -/
def LEGACY_FEP_FORMAT : String := "file-encrypt-plus"

/-- Legacy format version (`LEGACY_FEP_VERSION`). -/
def LEGACY_FEP_VERSION : Nat := 1

/-- Current format tag (`AFE_FORMAT`). -/
def AFE_FORMAT : String := "advanced-file-encryption"

/-- Current format version (`AFE_VERSION`). -/
def AFE_VERSION : Nat := 2

/-- Structured content of a `.locked` file (`AFEFileData`). JSON
stringify/parse of this well-typed record is modelled as the identity. -/
structure AFEFileData where
  format : String
  version : Nat
  encryption : EncryptionParams
  keyType : String
  hint : String
  data : Base64
deriving DecidableEq, Repr

/-- Check if file data needs migration to the current format
(`needsMigration`): true for the legacy format tag or old version numbers. -/
def needsMigration (data : AFEFileData) : Bool :=
  data.format == LEGACY_FEP_FORMAT || data.version < AFE_VERSION

/-- Encrypt plaintext and produce a complete `.locked` container (`encode`):
always writes the current format (v2) with the default parameters. -/
def encode (plaintext password : String) (hint : String)
    (ivEntropy saltEntropy : List Nat) : AFEFileData :=
  let result := encryptText plaintext password DEFAULT_ENCRYPTION_PARAMS
    ivEntropy saltEntropy
  { format := AFE_FORMAT
    version := AFE_VERSION
    encryption := result.params
    keyType := "password"
    hint := hint
    data := result.data }

/-- Parse a `.locked` container into structured metadata without decrypting
(`parse`): accepts the current and the legacy format tag, throws
(`Except.error`) for anything else. -/
def parse (raw : AFEFileData) : Except String AFEFileData :=
  if raw.format ≠ AFE_FORMAT ∧ raw.format ≠ LEGACY_FEP_FORMAT then
    .error "Not an Advanced File Encryption file"
  else .ok raw

/-- Parse a `.locked` container and decrypt the content (`decode`):
`Except.error` models the exception propagated from `parse`, `Option.none`
the wrong-password / corrupted-data sentinel of `decryptText`. -/
def decode (jsonString : AFEFileData) (password : String) :
    Except String (Option String) :=
  (parse jsonString).map fun fileData =>
    decryptText fileData.data password fileData.encryption

/-- Re-encode a legacy container under the current default parameters
(algorithmic core of `EncryptedMarkdownView.migrateIfNeeded` in
`src/unnamed/part_000`): skip when no migration is needed, decrypt with the
current password, re-encode the plaintext with the preserved hint under
fresh IV/salt randomness. -/
def migrate (fileData : AFEFileData) (password : String)
    (ivEntropy saltEntropy : List Nat) : Option AFEFileData :=
  if !needsMigration fileData then none
  else
    match decode fileData password with
    | .ok (some plaintext) =>
      some (encode plaintext password fileData.hint ivEntropy saltEntropy)
    | _ => none

/-! ## Crypto round-trip lemmas -/

theorem symBytes_map_raw (l : List Nat) : symBytes (l.map Sym.raw) = some l := by
  induction l with
  | nil => rfl
  | cons n rest ih => simp [symBytes, ih]

theorem aesGcmEncrypt_length (pt : String) (k : CryptoKeyData) (iv : List Nat) :
    (aesGcmEncrypt pt k iv).length = pt.utf8ByteSize + 16 := by
  simp [aesGcmEncrypt]

theorem aesGcmDecrypt_encrypt (pt : String) (k : CryptoKeyData)
    (iv : List Nat) : aesGcmDecrypt (aesGcmEncrypt pt k iv) k iv = some pt := by
  rw [aesGcmEncrypt, aesGcmDecrypt]
  simp [aesGcmEncrypt]

theorem aesGcmDecrypt_wrong_key (pt : String) (k k2 : CryptoKeyData)
    (iv : List Nat) (hk : k ≠ k2) :
    aesGcmDecrypt (aesGcmEncrypt pt k iv) k2 iv = none := by
  rw [aesGcmEncrypt, aesGcmDecrypt]
  simp [aesGcmEncrypt]
  intro h
  exact hk h

theorem encryptText_packed (pt pw : String) (params : EncryptionParams)
    (iv salt : List Nat) :
    base64ToUint8Array (encryptText pt pw params iv salt).data =
      iv.map Sym.raw ++ salt.map Sym.raw ++
        aesGcmEncrypt pt (PasswordKeyProvider.deriveKey pw salt params false)
          iv := by
  rfl

theorem decryptText_encryptText (pt pw : String) (params : EncryptionParams)
    (iv salt : List Nat) (hiv : iv.length = params.ivLength)
    (hsalt : salt.length = params.keyDerivation.saltLength) :
    decryptText (encryptText pt pw params iv salt).data pw params = some pt := by
  have hpacked := encryptText_packed pt pw params iv salt
  rw [decryptText, hpacked]
  have hlen : (iv.map Sym.raw ++ salt.map Sym.raw ++
      aesGcmEncrypt pt (PasswordKeyProvider.deriveKey pw salt params false)
        iv).length =
      params.ivLength + params.keyDerivation.saltLength +
        (pt.utf8ByteSize + 16) := by
    simp [aesGcmEncrypt_length, hiv, hsalt]
    omega
  have hivm : (iv.map Sym.raw).length = params.ivLength := by
    simp [hiv]
  have hsaltm : (salt.map Sym.raw).length =
      params.keyDerivation.saltLength := by
    simp [hsalt]
  have htake : (iv.map Sym.raw ++ salt.map Sym.raw ++
      aesGcmEncrypt pt (PasswordKeyProvider.deriveKey pw salt params false)
        iv).take params.ivLength = iv.map Sym.raw := by
    rw [List.append_assoc, ← hivm, List.take_left]
  have hdrop : (iv.map Sym.raw ++ salt.map Sym.raw ++
      aesGcmEncrypt pt (PasswordKeyProvider.deriveKey pw salt params false)
        iv).drop params.ivLength =
      salt.map Sym.raw ++
        aesGcmEncrypt pt (PasswordKeyProvider.deriveKey pw salt params false)
          iv := by
    rw [List.append_assoc, ← hivm, List.drop_left]
  have hdrop2 : (iv.map Sym.raw ++ salt.map Sym.raw ++
      aesGcmEncrypt pt (PasswordKeyProvider.deriveKey pw salt params false)
        iv).drop (params.ivLength + params.keyDerivation.saltLength) =
      aesGcmEncrypt pt (PasswordKeyProvider.deriveKey pw salt params false)
        iv := by
    have hl : (iv.map Sym.raw ++ salt.map Sym.raw).length =
        params.ivLength + params.keyDerivation.saltLength := by
      simp [hiv, hsalt]
    rw [← hl, List.drop_left]
  have hcond : ¬((iv.map Sym.raw ++ salt.map Sym.raw ++
      aesGcmEncrypt pt (PasswordKeyProvider.deriveKey pw salt params false)
        iv).length <
      params.ivLength + params.keyDerivation.saltLength + 1) := by
    rw [hlen]; omega
  rw [if_neg hcond, htake, hdrop, hdrop2, List.take_left' hsaltm]
  simp only [symBytes_map_raw]
  exact aesGcmDecrypt_encrypt pt _ iv

theorem decryptText_encryptText_unpack (pt pw pw2 : String)
    (params : EncryptionParams) (iv salt : List Nat)
    (hiv : iv.length = params.ivLength)
    (hsalt : salt.length = params.keyDerivation.saltLength) :
    decryptText (encryptText pt pw params iv salt).data pw2 params =
      aesGcmDecrypt
        (aesGcmEncrypt pt (PasswordKeyProvider.deriveKey pw salt params false)
          iv)
        (PasswordKeyProvider.deriveKey pw2 salt params false) iv := by
  have hpacked := encryptText_packed pt pw params iv salt
  rw [decryptText, hpacked]
  have hlen : (iv.map Sym.raw ++ salt.map Sym.raw ++
      aesGcmEncrypt pt (PasswordKeyProvider.deriveKey pw salt params false)
        iv).length =
      params.ivLength + params.keyDerivation.saltLength +
        (pt.utf8ByteSize + 16) := by
    simp [aesGcmEncrypt_length, hiv, hsalt]
    omega
  have hivm : (iv.map Sym.raw).length = params.ivLength := by
    simp [hiv]
  have hsaltm : (salt.map Sym.raw).length =
      params.keyDerivation.saltLength := by
    simp [hsalt]
  have htake : (iv.map Sym.raw ++ salt.map Sym.raw ++
      aesGcmEncrypt pt (PasswordKeyProvider.deriveKey pw salt params false)
        iv).take params.ivLength = iv.map Sym.raw := by
    rw [List.append_assoc, ← hivm, List.take_left]
  have hdrop : (iv.map Sym.raw ++ salt.map Sym.raw ++
      aesGcmEncrypt pt (PasswordKeyProvider.deriveKey pw salt params false)
        iv).drop params.ivLength =
      salt.map Sym.raw ++
        aesGcmEncrypt pt (PasswordKeyProvider.deriveKey pw salt params false)
          iv := by
    rw [List.append_assoc, ← hivm, List.drop_left]
  have hdrop2 : (iv.map Sym.raw ++ salt.map Sym.raw ++
      aesGcmEncrypt pt (PasswordKeyProvider.deriveKey pw salt params false)
        iv).drop (params.ivLength + params.keyDerivation.saltLength) =
      aesGcmEncrypt pt (PasswordKeyProvider.deriveKey pw salt params false)
        iv := by
    have hl : (iv.map Sym.raw ++ salt.map Sym.raw).length =
        params.ivLength + params.keyDerivation.saltLength := by
      simp [hiv, hsalt]
    rw [← hl, List.drop_left]
  have hcond : ¬((iv.map Sym.raw ++ salt.map Sym.raw ++
      aesGcmEncrypt pt (PasswordKeyProvider.deriveKey pw salt params false)
        iv).length <
      params.ivLength + params.keyDerivation.saltLength + 1) := by
    rw [hlen]; omega
  rw [if_neg hcond, htake, hdrop, hdrop2, List.take_left' hsaltm]
  simp only [symBytes_map_raw]

theorem deriveKey_ne_of_password_ne (pw pw2 : String) (salt : List Nat)
    (params : EncryptionParams) (b : Bool) (hne : pw ≠ pw2) :
    PasswordKeyProvider.deriveKey pw salt params b ≠
      PasswordKeyProvider.deriveKey pw2 salt params b := by
  intro h
  exact hne (congrArg CryptoKeyData.password h)

theorem decryptText_wrong_password (pt pw pw2 : String)
    (params : EncryptionParams) (iv salt : List Nat)
    (hiv : iv.length = params.ivLength)
    (hsalt : salt.length = params.keyDerivation.saltLength)
    (hne : pw ≠ pw2) :
    decryptText (encryptText pt pw params iv salt).data pw2 params = none := by
  rw [decryptText_encryptText_unpack pt pw pw2 params iv salt hiv hsalt]
  exact aesGcmDecrypt_wrong_key pt _ _ iv
    (deriveKey_ne_of_password_ne pw pw2 salt params false hne)

/-! ## Codec lemmas -/

theorem parse_encode (pt pw hint : String) (iv salt : List Nat) :
    parse (encode pt pw hint iv salt) = .ok (encode pt pw hint iv salt) := by
  rw [parse, if_neg]
  intro h
  exact h.1 rfl

theorem decode_encode_roundtrip (pt pw hint : String) (iv salt : List Nat)
    (hiv : iv.length = 16) (hsalt : salt.length = 16) :
    decode (encode pt pw hint iv salt) pw = .ok (some pt) := by
  rw [decode, parse_encode]
  show Except.ok (decryptText (encode pt pw hint iv salt).data pw
    (encode pt pw hint iv salt).encryption) = Except.ok (some pt)
  have : (encode pt pw hint iv salt).data =
      (encryptText pt pw DEFAULT_ENCRYPTION_PARAMS iv salt).data := rfl
  rw [this]
  show Except.ok (decryptText _ pw DEFAULT_ENCRYPTION_PARAMS) = _
  rw [decryptText_encryptText pt pw DEFAULT_ENCRYPTION_PARAMS iv salt hiv
    hsalt]

/-! ## Claims C1 - C3 -/

/-- C1: for every plaintext `P`, password `K` and hint `H`, decoding the
container produced by `encode` with the same password returns the original
plaintext, and the parsed container carries `H` unchanged in its `hint`
field. (`iv`/`salt` are the 16 random bytes the RNG returns for the IV and
the salt.) -/
theorem C1_round_trip (P K H : String) (iv salt : List Nat)
    (hiv : iv.length = 16) (hsalt : salt.length = 16) :
    decode (encode P K H iv salt) K = .ok (some P) ∧
    parse (encode P K H iv salt) = .ok (encode P K H iv salt) ∧
    (encode P K H iv salt).hint = H :=
  ⟨decode_encode_roundtrip P K H iv salt hiv hsalt,
   parse_encode P K H iv salt, rfl⟩

/-- Witness for C1 at a concrete plaintext, password, hint and randomness. -/
theorem C1_round_trip_witness :
    decode (encode "secret note" "correct-horse" "battery"
        (List.replicate 16 0) (List.replicate 16 1)) "correct-horse" =
      .ok (some "secret note") ∧
    parse (encode "secret note" "correct-horse" "battery"
        (List.replicate 16 0) (List.replicate 16 1)) =
      .ok (encode "secret note" "correct-horse" "battery"
        (List.replicate 16 0) (List.replicate 16 1)) ∧
    (encode "secret note" "correct-horse" "battery"
        (List.replicate 16 0) (List.replicate 16 1)).hint = "battery" :=
  C1_round_trip "secret note" "correct-horse" "battery"
    (List.replicate 16 0) (List.replicate 16 1) (by simp) (by simp)

/-- C2: decoding a container produced under password `K1` with a different
password `K2` returns the `null` sentinel (`Except.ok none`), never a thrown
exception (`Except.error`). -/
theorem C2_wrong_password (P K1 K2 H : String) (iv salt : List Nat)
    (hiv : iv.length = 16) (hsalt : salt.length = 16) (hne : K1 ≠ K2) :
    decode (encode P K1 H iv salt) K2 = .ok none := by
  rw [decode, parse_encode]
  show Except.ok (decryptText (encode P K1 H iv salt).data K2
    (encode P K1 H iv salt).encryption) = Except.ok none
  have : (encode P K1 H iv salt).data =
      (encryptText P K1 DEFAULT_ENCRYPTION_PARAMS iv salt).data := rfl
  rw [this]
  show Except.ok (decryptText _ K2 DEFAULT_ENCRYPTION_PARAMS) = _
  rw [decryptText_wrong_password P K1 K2 DEFAULT_ENCRYPTION_PARAMS iv salt hiv
    hsalt hne]

/-- Witness for C2 at a concrete plaintext, passwords and randomness. -/
theorem C2_wrong_password_witness :
    decode (encode "secret note" "correct-horse" "battery"
        (List.replicate 16 2) (List.replicate 16 3)) "wrong" = .ok none :=
  C2_wrong_password "secret note" "correct-horse" "wrong" "battery"
    (List.replicate 16 2) (List.replicate 16 3) (by simp) (by simp)
    (by decide)

/-- C3 counterexample: a current-format container whose data blob is empty
(length `0 < ivLength + saltLength + 1`) makes `decode` return the `null`
wrong-password sentinel (`Except.ok none`); it does not throw a typed format
error, contrary to the claim. -/
theorem C3_counterexample :
    decode
      { format := "advanced-file-encryption"
        version := 2
        encryption := DEFAULT_ENCRYPTION_PARAMS
        keyType := "password"
        hint := ""
        data := ⟨[]⟩ } "pw" = .ok none := by
  rfl

/-- C3 (amended): for every container whose decoded data blob has length
strictly smaller than `ivLength + saltLength + 1`, `decode` returns the
`null` sentinel (`Except.ok none`) — the same signal as a wrong password —
rather than throwing a typed format error. -/
theorem C3_short_blob_null (fd : AFEFileData) (pw : String)
    (hfmt : fd.format = AFE_FORMAT ∨ fd.format = LEGACY_FEP_FORMAT)
    (hlen : (base64ToUint8Array fd.data).length <
      fd.encryption.ivLength + fd.encryption.keyDerivation.saltLength + 1) :
    decode fd pw = .ok none := by
  have hparse : parse fd = .ok fd := by
    rw [parse, if_neg]
    intro h
    rcases hfmt with h1 | h1
    · exact h.1 h1
    · exact h.2 h1
  rw [decode, hparse]
  show Except.ok (decryptText fd.data pw fd.encryption) = Except.ok none
  rw [decryptText, if_pos hlen]

/-- Witness for the amended C3 at a concrete undersized container. -/
theorem C3_short_blob_null_witness :
    decode
      { format := "advanced-file-encryption"
        version := 2
        encryption := DEFAULT_ENCRYPTION_PARAMS
        keyType := "password"
        hint := "h"
        data := ⟨[Sym.raw 7]⟩ } "pw" = .ok none :=
  C3_short_blob_null _ "pw" (Or.inl rfl) (by decide)

/-! ## Claims C4 and C7 -/

theorem Sym_raw_injective : Function.Injective Sym.raw := by
  intro a b h
  injection h

/-- C4: `encode` feeds the freshly drawn IV and salt bytes into the packed
blob, so two `encode` calls with the same plaintext and password whose drawn
IV or salt bytes differ produce different `data` blobs (the nonce is embedded
verbatim at the front of the blob, so a blob collision would force the same
nonce). -/
theorem C4_fresh_iv_salt (pt pw hint : String) (iv1 salt1 iv2 salt2 : List Nat)
    (h1 : iv1.length = 16) (h2 : salt1.length = 16) (h3 : iv2.length = 16)
    (h4 : salt2.length = 16) (hne : iv1 ≠ iv2 ∨ salt1 ≠ salt2) :
    (encode pt pw hint iv1 salt1).data ≠ (encode pt pw hint iv2 salt2).data := by
  intro heq
  have hbytes : iv1.map Sym.raw ++ (salt1.map Sym.raw ++
      aesGcmEncrypt pt (PasswordKeyProvider.deriveKey pw salt1
        DEFAULT_ENCRYPTION_PARAMS false) iv1) =
      iv2.map Sym.raw ++ (salt2.map Sym.raw ++
      aesGcmEncrypt pt (PasswordKeyProvider.deriveKey pw salt2
        DEFAULT_ENCRYPTION_PARAMS false) iv2) := by
    have h := congrArg Base64.bytes heq
    simpa [encode, encryptText, uint8ArrayToBase64, generateIv, generateSalt,
      List.append_assoc] using h
  have hlen1 : (iv1.map Sym.raw).length = (iv2.map Sym.raw).length := by
    simp [h1, h3]
  obtain ⟨hivm, hrest⟩ := List.append_inj hbytes hlen1
  have hiv : iv1 = iv2 := (List.map_injective_iff.2 Sym_raw_injective) hivm
  have hlen2 : (salt1.map Sym.raw).length = (salt2.map Sym.raw).length := by
    simp [h2, h4]
  obtain ⟨hsaltm, -⟩ := List.append_inj hrest hlen2
  have hsalt : salt1 = salt2 :=
    (List.map_injective_iff.2 Sym_raw_injective) hsaltm
  rcases hne with h | h
  · exact h hiv
  · exact h hsalt

/-- Witness for C4 at concrete randomness differing in the IV. -/
theorem C4_fresh_iv_salt_witness :
    (encode "secret note" "correct-horse" "battery"
        (List.replicate 16 0) (List.replicate 16 1)).data ≠
      (encode "secret note" "correct-horse" "battery"
        (List.replicate 16 9) (List.replicate 16 1)).data :=
  C4_fresh_iv_salt "secret note" "correct-horse" "battery"
    (List.replicate 16 0) (List.replicate 16 1)
    (List.replicate 16 9) (List.replicate 16 1)
    (by simp) (by simp) (by simp) (by simp) (Or.inl (by decide))

/-- C7: migrating a decryptable legacy container re-encodes it under the
current format with fresh IV/salt, so the migrated container parses, no
longer needs migration, decodes with the same password to the original
plaintext, and keeps the hint unchanged. -/
theorem C7_migration (fd : AFEFileData) (pw pt : String) (iv salt : List Nat)
    (hleg : fd.format = LEGACY_FEP_FORMAT)
    (hdec : decode fd pw = .ok (some pt))
    (hiv : iv.length = 16) (hsalt : salt.length = 16) :
    migrate fd pw iv salt = some (encode pt pw fd.hint iv salt) ∧
    parse (encode pt pw fd.hint iv salt) =
      .ok (encode pt pw fd.hint iv salt) ∧
    needsMigration (encode pt pw fd.hint iv salt) = false ∧
    decode (encode pt pw fd.hint iv salt) pw = .ok (some pt) ∧
    (encode pt pw fd.hint iv salt).hint = fd.hint := by
  have hneeds : needsMigration fd = true := by
    simp [needsMigration, hleg]
  refine ⟨?_, parse_encode pt pw fd.hint iv salt, rfl,
    decode_encode_roundtrip pt pw fd.hint iv salt hiv hsalt, rfl⟩
  rw [migrate, hneeds]
  simp only [Bool.not_true, Bool.false_eq_true, if_false, hdec]

/-- Witness for C7 at a concrete decryptable legacy container. -/
theorem C7_migration_witness :
    migrate
      { format := "file-encrypt-plus"
        version := 1
        encryption := DEFAULT_ENCRYPTION_PARAMS
        keyType := "password"
        hint := "old hint"
        data := (encryptText "pt" "pw" DEFAULT_ENCRYPTION_PARAMS
          (List.replicate 16 4) (List.replicate 16 5)).data } "pw"
      (List.replicate 16 6) (List.replicate 16 7) =
      some (encode "pt" "pw" "old hint"
        (List.replicate 16 6) (List.replicate 16 7)) ∧
    parse (encode "pt" "pw" "old hint"
        (List.replicate 16 6) (List.replicate 16 7)) =
      .ok (encode "pt" "pw" "old hint"
        (List.replicate 16 6) (List.replicate 16 7)) ∧
    needsMigration (encode "pt" "pw" "old hint"
        (List.replicate 16 6) (List.replicate 16 7)) = false ∧
    decode (encode "pt" "pw" "old hint"
        (List.replicate 16 6) (List.replicate 16 7)) "pw" = .ok (some "pt") ∧
    (encode "pt" "pw" "old hint"
        (List.replicate 16 6) (List.replicate 16 7)).hint = "old hint" :=
  C7_migration
    { format := "file-encrypt-plus"
      version := 1
      encryption := DEFAULT_ENCRYPTION_PARAMS
      keyType := "password"
      hint := "old hint"
      data := (encryptText "pt" "pw" DEFAULT_ENCRYPTION_PARAMS
        (List.replicate 16 4) (List.replicate 16 5)).data } "pw" "pt"
    (List.replicate 16 6) (List.replicate 16 7) rfl
    (by
      rw [decode, parse, if_neg]
      · show Except.ok (decryptText (encryptText "pt" "pw"
          DEFAULT_ENCRYPTION_PARAMS (List.replicate 16 4)
          (List.replicate 16 5)).data "pw" DEFAULT_ENCRYPTION_PARAMS) = _
        rw [decryptText_encryptText "pt" "pw" DEFAULT_ENCRYPTION_PARAMS
          (List.replicate 16 4) (List.replicate 16 5) rfl rfl]
      · intro h
        exact h.2 rfl)
    (by simp) (by simp)

/-! ## JS Map model (insertion-ordered association list) -/

/-- Lookup in a JS `Map` (also used for JSON-object property access). -/
def mapGet {α : Type} : List (String × α) → String → Option α
  | [], _ => none
  | (k2, v2) :: rest, k => if k2 = k then some v2 else mapGet rest k

/-- JS `Map.set`: replace in place when the key exists (keeping its
insertion position), append otherwise. -/
def mapSet {α : Type} : List (String × α) → String → α → List (String × α)
  | [], k, v => [(k, v)]
  | (k2, v2) :: rest, k, v =>
    if k2 = k then (k, v) :: rest else (k2, v2) :: mapSet rest k v

/-- JS `Map.delete`. -/
def mapDelete {α : Type} (m : List (String × α)) (k : String) :
    List (String × α) :=
  m.filter (fun p => p.1 != k)

theorem mapGet_mapSet_self {α : Type} (m : List (String × α)) (k : String)
    (v : α) : mapGet (mapSet m k v) k = some v := by
  induction m with
  | nil => simp [mapSet, mapGet]
  | cons p rest ih =>
    by_cases h : p.1 = k
    · simp [mapSet, mapGet, h]
    · simp [mapSet, mapGet, h, ih]

theorem mapGet_mapSet_ne {α : Type} (m : List (String × α)) (k k2 : String)
    (v : α) (hne : k2 ≠ k) : mapGet (mapSet m k v) k2 = mapGet m k2 := by
  have hne2 : ¬ k = k2 := fun h => hne h.symm
  induction m with
  | nil => simp [mapSet, mapGet, hne2]
  | cons p rest ih =>
    obtain ⟨pk, pv⟩ := p
    by_cases h : pk = k
    · subst h
      simp [mapSet, mapGet, hne2]
    · simp [mapSet, mapGet, h, ih]

theorem mapGet_mapDelete_self {α : Type} (m : List (String × α)) (k : String) :
    mapGet (mapDelete m k) k = none := by
  induction m with
  | nil => simp [mapDelete, mapGet]
  | cons p rest ih =>
    obtain ⟨pk, pv⟩ := p
    by_cases h : pk = k
    · simpa [mapDelete, mapGet, bne_iff_ne, h] using ih
    · simpa [mapDelete, mapGet, bne_iff_ne, h] using ih

theorem mapGet_mapDelete_ne {α : Type} (m : List (String × α)) (k k2 : String)
    (hne : k2 ≠ k) : mapGet (mapDelete m k) k2 = mapGet m k2 := by
  have hne2 : ¬ k = k2 := fun h => hne h.symm
  induction m with
  | nil => simp [mapDelete, mapGet]
  | cons p rest ih =>
    obtain ⟨pk, pv⟩ := p
    by_cases h : pk = k
    · subst h
      simpa [mapDelete, mapGet, bne_iff_ne, hne2] using ih
    · have ih2 : mapGet (List.filter (fun p => p.1 != k) rest) k2 =
          mapGet rest k2 := ih
      simp [mapDelete, mapGet, bne_iff_ne, h, ih2]

theorem mapGet_mem {α : Type} (m : List (String × α)) (k : String) (v : α)
    (h : mapGet m k = some v) : (k, v) ∈ m := by
  induction m with
  | nil => simp [mapGet] at h
  | cons p rest ih =>
    obtain ⟨pk, pv⟩ := p
    rw [mapGet] at h
    by_cases hk : pk = k
    · rw [if_pos hk] at h
      injection h with h2
      subst h2
      subst hk
      exact List.mem_cons_self _ _
    · rw [if_neg hk] at h
      exact List.mem_cons_of_mem _ (ih h)

/-! ## Loosely-typed JSON model of the codec (for C10) -/

namespace Loose

/-- JSON value as produced by `JSON.parse`. A string field holding valid
base64 is represented as `jb64` (the byte list it denotes); any other string
as `jstr`. -/
inductive JValue where
  | jnull
  | jbool (b : Bool)
  | jnum (n : Nat)
  | jstr (s : String)
  | jb64 (b : Base64)
  | jarr (elems : List JValue)
  | jobj (fields : List (String × JValue))

/-- Property access `obj[name]` on a parsed JSON value; `none` models JS
`undefined` (missing field or non-object receiver). -/
def getField (v : JValue) (name : String) : Option JValue :=
  match v with
  | JValue.jobj fields => mapGet fields name
  | _ => none

/-- Strict equality test `obj.format === tag` of the source's `parse` and
`isEncryptedFile`. -/
def formatIs (v : JValue) (tag : String) : Bool :=
  match getField v "format" with
  | some (JValue.jstr s) => s == tag
  | _ => false

/-- Structural parse of the `.locked` codec (`parse`), loosely typed exactly
as the source: it validates ONLY the top-level `format` tag (current or
legacy) and returns the parsed JSON value unchanged, whatever its other
fields. -/
def parse (v : JValue) : Except String JValue :=
  if !(formatIs v AFE_FORMAT) && !(formatIs v LEGACY_FEP_FORMAT) then
    Except.error "Not an Advanced File Encryption file"
  else Except.ok v

/-- Non-throwing probe (`isEncryptedFile`); `none` models raw input on which
`JSON.parse` throws. -/
def isEncryptedFile (v : Option JValue) : Bool :=
  match v with
  | some d => formatIs d AFE_FORMAT || formatIs d LEGACY_FEP_FORMAT
  | none => false

/-- Kind of exception thrown out of `decode`: the typed format error thrown
by `parse`, the `atob` error on a missing/non-base64 `data` field, or the
error raised when the `encryption` parameters are missing or ill-typed. -/
inductive ThrowKind where
  | formatError
  | base64Error
  | typeError
deriving DecidableEq, Repr

/-- Read well-typed `EncryptionParams` out of a parsed JSON `encryption`
field; `none` when a required field is missing or of the wrong type (the
source then throws while slicing or inside the Web Crypto calls). -/
def readParams (v : JValue) : Option EncryptionParams :=
  match getField v "algorithm", getField v "keySize", getField v "ivLength",
      getField v "keyDerivation" with
  | some (JValue.jstr alg), some (JValue.jnum ks), some (JValue.jnum ivl),
      some kd =>
    match getField kd "function", getField kd "hash",
        getField kd "iterations", getField kd "saltLength" with
    | some (JValue.jstr fn), some (JValue.jstr h), some (JValue.jnum it),
        some (JValue.jnum sl) =>
      some { algorithm := alg, keySize := ks, ivLength := ivl,
             keyDerivation := { function := fn, hash := h, iterations := it,
                                saltLength := sl } }
    | _, _, _, _ => none
  | _, _, _, _ => none

/-- Loosely-typed `decode`: `parse`, then `decryptText(fileData.data,
password, fileData.encryption)`. Mirrors the source's evaluation order:
`atob` runs on the `data` field first (throwing when it is missing or not
base64), the `encryption` parameters are read after. -/
def decode (v : JValue) (password : String) :
    Except ThrowKind (Option String) :=
  match parse v with
  | Except.error _ => Except.error ThrowKind.formatError
  | Except.ok fd =>
    match getField fd "data" with
    | some (JValue.jb64 b) =>
      match getField fd "encryption" with
      | some enc =>
        match readParams enc with
        | some params => Except.ok (decryptText b password params)
        | none => Except.error ThrowKind.typeError
      | none => Except.error ThrowKind.typeError
    | _ => Except.error ThrowKind.base64Error

end Loose

/-- C10: `parse` validates only the top-level format tag — any JSON object
whose `format` field equals the current or the legacy tag is returned
unchanged, however malformed its other fields, and `isEncryptedFile` accepts
it; `decode` on such a container with its `data` field missing throws from
the downstream base64 layer (not the typed format error, and not the `null`
wrong-password sentinel). -/
theorem C10_parse_format_only :
    (∀ v : Loose.JValue,
      (Loose.formatIs v AFE_FORMAT || Loose.formatIs v LEGACY_FEP_FORMAT) =
        true →
      Loose.parse v = Except.ok v ∧ Loose.isEncryptedFile (some v) = true) ∧
    (∀ (v : Loose.JValue) (pw : String),
      (Loose.formatIs v AFE_FORMAT || Loose.formatIs v LEGACY_FEP_FORMAT) =
        true →
      Loose.getField v "data" = none →
      Loose.decode v pw = Except.error Loose.ThrowKind.base64Error ∧
      Loose.ThrowKind.base64Error ≠ Loose.ThrowKind.formatError) := by
  have hparse : ∀ v : Loose.JValue,
      (Loose.formatIs v AFE_FORMAT || Loose.formatIs v LEGACY_FEP_FORMAT) =
        true → Loose.parse v = Except.ok v := by
    intro v h
    rcases Bool.or_eq_true_iff.mp h with h1 | h1 <;>
      simp [Loose.parse, h1]
  refine ⟨fun v h => ⟨hparse v h, h⟩, fun v pw h hdata => ⟨?_, by decide⟩⟩
  rw [Loose.decode, hparse v h]
  simp only [hdata]

/-- Concrete structurally incomplete container for the C10 witness: the
format tag matches, `version` has the wrong type, and `encryption`, `data`
are missing. -/
def looseIncomplete : Loose.JValue :=
  Loose.JValue.jobj
    [("format", Loose.JValue.jstr "advanced-file-encryption"),
     ("version", Loose.JValue.jstr "two")]

/-- Witness for C10 at a concrete structurally incomplete container. -/
theorem C10_parse_format_only_witness :
    Loose.parse looseIncomplete = Except.ok looseIncomplete ∧
    Loose.isEncryptedFile (some looseIncomplete) = true ∧
    Loose.decode looseIncomplete "pw" =
      Except.error Loose.ThrowKind.base64Error :=
  ⟨(C10_parse_format_only.1 looseIncomplete rfl).1,
   (C10_parse_format_only.1 looseIncomplete rfl).2,
   (C10_parse_format_only.2 looseIncomplete "pw" rfl rfl).1⟩

/-! ## Session manager model (`src/src/services/session-manager.ts`) -/

/-- Security mode of the session cache (`SessionMode`), a union of four
string literals in the source. -/
inductive SessionMode where
  | sessionPassword
  | timedPassword
  | keysOnly
  | noStorage
deriving DecidableEq, Repr

/-- Cached entry (`SessionEntry`): `expiry` is an absolute timestamp in ms,
`none` = no expiry. -/
structure SessionEntry where
  password : Option String
  hint : String
  key : Option CryptoKeyData
  expiry : Option Nat
deriving DecidableEq, Repr

/-- State of a `SessionManager`: the two private `Map`s (insertion-ordered
association lists, a timer represented by its scheduled fire time), the mode
and the configured windows in ms. `Date.now()` is passed explicitly as `now`
to the operations; the active `setTimeout` callback is not modelled — the
expiry claims are about the passive timestamp checks. -/
structure SessionManager where
  entries : List (String × SessionEntry)
  timers : List (String × Nat)
  mode : SessionMode
  sessionTimeoutMs : Nat
  timedWindowMs : Nat
deriving Repr

/-- Constructor of `SessionManager` (timeout in minutes, window in seconds;
a non-positive session timeout is stored as `0`, meaning no expiry). -/
def mkSessionManager (mode : SessionMode) (sessionTimeoutMinutes : Nat)
    (timedWindowSeconds : Nat) : SessionManager :=
  { entries := []
    timers := []
    mode := mode
    sessionTimeoutMs :=
      if sessionTimeoutMinutes = 0 then 0
      else sessionTimeoutMinutes * 60 * 1000
    timedWindowMs := timedWindowSeconds * 1000 }

/-- Expiry check (`isExpired`): strictly past-the-timestamp, `null` expiry
never expires. -/
def isExpired (now : Nat) (entry : SessionEntry) : Bool :=
  match entry.expiry with
  | none => false
  | some t => now > t

/-- Schedule the active-expiry timer (`scheduleExpiry`): records the fire
time `now + delayMs` under the path. -/
def SessionManager.scheduleExpiry (m : SessionManager) (now : Nat)
    (filePath : String) (delayMs : Nat) : SessionManager :=
  { m with timers := mapSet m.timers filePath (now + delayMs) }

/-- Cancel a pending timer (`clearTimer`). -/
def SessionManager.clearTimer (m : SessionManager) (filePath : String) :
    SessionManager :=
  { m with timers := mapDelete m.timers filePath }

/-- Store a password (and optionally a derived key) for a file path
(`put`); what gets stored depends on the current mode. -/
def SessionManager.put (m : SessionManager) (now : Nat)
    (filePath password hint : String) (key : Option CryptoKeyData) :
    SessionManager :=
  let m1 := m.clearTimer filePath
  match m1.mode with
  | SessionMode.noStorage => m1
  | SessionMode.keysOnly =>
    match key with
    | none => m1
    | some k =>
      let entry : SessionEntry :=
        { password := none, hint := hint, key := some k, expiry := none }
      { m1 with entries := mapSet m1.entries filePath entry }
  | SessionMode.timedPassword =>
    let expiry := now + m1.timedWindowMs
    let entry : SessionEntry :=
      { password := some password, hint := hint, key := key,
        expiry := some expiry }
    let m2 := { m1 with entries := mapSet m1.entries filePath entry }
    m2.scheduleExpiry now filePath m1.timedWindowMs
  | SessionMode.sessionPassword =>
    let expiry :=
      if m1.sessionTimeoutMs > 0 then some (now + m1.sessionTimeoutMs)
      else none
    let entry : SessionEntry :=
      { password := some password, hint := hint, key := key,
        expiry := expiry }
    let m2 := { m1 with entries := mapSet m1.entries filePath entry }
    if m1.sessionTimeoutMs > 0 then
      m2.scheduleExpiry now filePath m1.sessionTimeoutMs
    else m2

/-- Get the cached password for a file path (`getPassword`): `none` in the
modes that store no passwords; otherwise the exact-path entry if present,
holding a password and unexpired, else the first cached unexpired password
anywhere in the map. -/
def SessionManager.getPassword (m : SessionManager) (now : Nat)
    (filePath : String) : Option String :=
  if m.mode = SessionMode.noStorage ∨ m.mode = SessionMode.keysOnly then
    none
  else
    let fallback := (m.entries.find? (fun pe =>
      pe.2.password.isSome && !(isExpired now pe.2))).bind
      (fun pe => pe.2.password)
    match mapGet m.entries filePath with
    | some entry =>
      if entry.password.isSome && !(isExpired now entry) then entry.password
      else fallback
    | none => fallback

/-- Get a cached key for a specific file (`getKey`): exact, unexpired path
match only. -/
def SessionManager.getKey (m : SessionManager) (now : Nat)
    (filePath : String) : Option CryptoKeyData :=
  match mapGet m.entries filePath with
  | none => none
  | some entry => if isExpired now entry then none else entry.key

/-- Update path when a file is renamed (`handleRename`): move the entry and
any pending timer from the old path to the new one, unchanged. -/
def SessionManager.handleRename (m : SessionManager)
    (oldPath newPath : String) : SessionManager :=
  match mapGet m.entries oldPath with
  | none => m
  | some entry =>
    let entries := mapSet (mapDelete m.entries oldPath) newPath entry
    let timers :=
      match mapGet m.timers oldPath with
      | some timer => mapSet (mapDelete m.timers oldPath) newPath timer
      | none => m.timers
    { m with entries := entries, timers := timers }

/-! ## Session manager lemmas -/

theorem mode_cond_false (m : SessionManager)
    (hmode : m.mode = SessionMode.sessionPassword ∨
      m.mode = SessionMode.timedPassword) :
    ¬(m.mode = SessionMode.noStorage ∨ m.mode = SessionMode.keysOnly) := by
  rcases hmode with h | h <;> simp [h]

theorem getPassword_exact (m : SessionManager) (now : Nat) (path : String)
    (e : SessionEntry)
    (hcond : ¬(m.mode = SessionMode.noStorage ∨
      m.mode = SessionMode.keysOnly))
    (hmg : mapGet m.entries path = some e)
    (hpred : (e.password.isSome && !(isExpired now e)) = true) :
    m.getPassword now path = e.password := by
  rw [SessionManager.getPassword, if_neg hcond]
  simp only [hmg, hpred, if_true]

theorem getPassword_fallback_eq (m : SessionManager) (now : Nat)
    (path : String)
    (hcond : ¬(m.mode = SessionMode.noStorage ∨
      m.mode = SessionMode.keysOnly))
    (hnoexact : ∀ e, mapGet m.entries path = some e →
      (e.password.isSome && !(isExpired now e)) = false) :
    m.getPassword now path =
      (m.entries.find? (fun pe =>
        pe.2.password.isSome && !(isExpired now pe.2))).bind
        (fun pe => pe.2.password) := by
  rw [SessionManager.getPassword, if_neg hcond]
  cases hmg : mapGet m.entries path with
  | none => simp only [hmg]
  | some e => simp [hmg, hnoexact e hmg]

theorem dead_of_pred_false (now : Nat) (e : SessionEntry)
    (h : (e.password.isSome && !(isExpired now e)) = false) :
    e.password = none ∨ isExpired now e = true := by
  cases hpw : e.password with
  | none => exact Or.inl rfl
  | some q =>
    right
    simpa [hpw] using h

theorem pred_false_of_dead (now : Nat) (e : SessionEntry)
    (h : e.password = none ∨ isExpired now e = true) :
    (e.password.isSome && !(isExpired now e)) = false := by
  rcases h with h | h <;> simp [h]

/-! ## Claim C5 -/

/-- C5: in session-password and timed-password modes, `getPassword` returns
the exact-path entry's password when that entry is present, holds a password
and is unexpired; whatever it returns is an unexpired password stored
somewhere in the cache; and it returns `none` exactly when no unexpired
password exists anywhere in the cache. -/
theorem C5_get_password (m : SessionManager) (now : Nat) (path : String)
    (hmode : m.mode = SessionMode.sessionPassword ∨
      m.mode = SessionMode.timedPassword) :
    (∀ (e : SessionEntry) (p : String), mapGet m.entries path = some e →
      e.password = some p → isExpired now e = false →
      m.getPassword now path = some p) ∧
    (∀ p : String, m.getPassword now path = some p →
      ∃ pe ∈ m.entries, pe.2.password = some p ∧
        isExpired now pe.2 = false) ∧
    (m.getPassword now path = none ↔
      ∀ pe ∈ m.entries, pe.2.password = none ∨ isExpired now pe.2 = true) := by
  have hcond := mode_cond_false m hmode
  have hfall : ∀ p : String,
      m.getPassword now path =
        (m.entries.find? (fun pe =>
          pe.2.password.isSome && !(isExpired now pe.2))).bind
          (fun pe => pe.2.password) →
      m.getPassword now path = some p →
      ∃ pe ∈ m.entries, pe.2.password = some p ∧
        isExpired now pe.2 = false := by
    intro p heq hp
    rw [heq] at hp
    cases hf : m.entries.find? (fun pe =>
        pe.2.password.isSome && !(isExpired now pe.2)) with
    | none => rw [hf] at hp; simp at hp
    | some pe =>
      rw [hf] at hp
      have hmem := List.mem_of_find?_eq_some hf
      have hpred := List.find?_some hf
      refine ⟨pe, hmem, by simpa using hp, ?_⟩
      have h2 := (Bool.and_eq_true _ _ ▸ hpred).2
      simpa using h2
  refine ⟨?_, ?_, ?_, ?_⟩
  · intro e p hmg hpw hexp
    rw [getPassword_exact m now path e hcond hmg (by simp [hpw, hexp]), hpw]
  · intro p hp
    cases hmg : mapGet m.entries path with
    | none =>
      exact hfall p (getPassword_fallback_eq m now path hcond
        (fun e he => absurd he (by simp [hmg]))) hp
    | some e =>
      by_cases hpred : (e.password.isSome && !(isExpired now e)) = true
      · have heq := getPassword_exact m now path e hcond hmg hpred
        rw [heq] at hp
        refine ⟨(path, e), mapGet_mem m.entries path e hmg, hp, ?_⟩
        have h2 := (Bool.and_eq_true _ _ ▸ hpred).2
        simpa using h2
      · exact hfall p (getPassword_fallback_eq m now path hcond
          (fun e2 he2 => by
            rw [hmg] at he2
            injection he2 with he3
            subst he3
            exact Bool.eq_false_iff.mpr hpred)) hp
  · intro hnone pe hpe
    cases hmg : mapGet m.entries path with
    | some e =>
      by_cases hpred : (e.password.isSome && !(isExpired now e)) = true
      · have heq := getPassword_exact m now path e hcond hmg hpred
        rw [heq] at hnone
        have h1 := (Bool.and_eq_true _ _ ▸ hpred).1
        rw [hnone] at h1
        simp at h1
      · have heq := getPassword_fallback_eq m now path hcond
          (fun e2 he2 => by
            rw [hmg] at he2
            injection he2 with he3
            subst he3
            exact Bool.eq_false_iff.mpr hpred)
        rw [heq] at hnone
        cases hf : m.entries.find? (fun pe =>
            pe.2.password.isSome && !(isExpired now pe.2)) with
        | some pe0 =>
          rw [hf] at hnone
          have hpred0 := List.find?_some hf
          have h1 := (Bool.and_eq_true _ _ ▸ hpred0).1
          cases hpw0 : pe0.2.password with
          | none => rw [hpw0] at h1; simp at h1
          | some q => simp [hpw0] at hnone
        | none =>
          have hall := List.find?_eq_none.mp hf
          exact dead_of_pred_false now pe.2
            (Bool.eq_false_iff.mpr (hall pe hpe))
    | none =>
      have heq := getPassword_fallback_eq m now path hcond
        (fun e he => absurd he (by simp [hmg]))
      rw [heq] at hnone
      cases hf : m.entries.find? (fun pe =>
          pe.2.password.isSome && !(isExpired now pe.2)) with
      | some pe0 =>
        rw [hf] at hnone
        have hpred0 := List.find?_some hf
        have h1 := (Bool.and_eq_true _ _ ▸ hpred0).1
        cases hpw0 : pe0.2.password with
        | none => rw [hpw0] at h1; simp at h1
        | some q => simp [hpw0] at hnone
      | none =>
        have hall := List.find?_eq_none.mp hf
        exact dead_of_pred_false now pe.2
          (Bool.eq_false_iff.mpr (hall pe hpe))
  · intro hall
    have hnoexact : ∀ e, mapGet m.entries path = some e →
        (e.password.isSome && !(isExpired now e)) = false := by
      intro e he
      exact pred_false_of_dead now e
        (hall (path, e) (mapGet_mem m.entries path e he))
    rw [getPassword_fallback_eq m now path hcond hnoexact]
    have hf : m.entries.find? (fun pe =>
        pe.2.password.isSome && !(isExpired now pe.2)) = none := by
      rw [List.find?_eq_none]
      intro pe hpe
      exact Bool.eq_false_iff.mp (pred_false_of_dead now pe.2 (hall pe hpe))
    rw [hf]
    rfl

/-- Witness for C5: a cache in session-password mode holding an unexpired
password entry returns it on an exact-path lookup. -/
theorem C5_get_password_witness :
    SessionManager.getPassword
      { entries := [("A.txt",
          { password := some "pw", hint := "h", key := none,
            expiry := none })]
        timers := []
        mode := SessionMode.sessionPassword
        sessionTimeoutMs := 0
        timedWindowMs := 60000 } 5 "A.txt" = some "pw" :=
  (C5_get_password _ 5 "A.txt" (Or.inl rfl)).1
    { password := some "pw", hint := "h", key := none, expiry := none }
    "pw" rfl rfl rfl

/-! ## Claim C6 -/

/-- C6: in keys-only mode `put` stores the entry with `password = none`
(and stores nothing when no key is supplied), `getPassword` returns `none`
for every path, and `getKey` returns the stored key on an exact, unexpired
path match; in no-storage mode `put` stores no entry at all. -/
theorem C6_keys_only_no_storage (m m2 : SessionManager) (now now2 : Nat)
    (path pw hint anyPath : String) (k : CryptoKeyData)
    (hm : m.mode = SessionMode.keysOnly)
    (hm2 : m2.mode = SessionMode.noStorage) :
    (m.put now path pw hint (some k)).entries =
      mapSet m.entries path
        { password := none, hint := hint, key := some k, expiry := none } ∧
    (m.put now path pw hint none).entries = m.entries ∧
    m.getPassword now anyPath = none ∧
    (m.put now path pw hint (some k)).getPassword now2 anyPath = none ∧
    (m.put now path pw hint (some k)).getKey now2 path = some k ∧
    (m2.put now path pw hint (some k)).entries = m2.entries := by
  refine ⟨?_, ?_, ?_, ?_, ?_, ?_⟩
  · simp [SessionManager.put, SessionManager.clearTimer, hm]
  · simp [SessionManager.put, SessionManager.clearTimer, hm]
  · simp [SessionManager.getPassword, hm]
  · simp [SessionManager.put, SessionManager.clearTimer,
      SessionManager.getPassword, hm]
  · simp [SessionManager.put, SessionManager.clearTimer,
      SessionManager.getKey, hm, mapGet_mapSet_self, isExpired]
  · simp [SessionManager.put, SessionManager.clearTimer, hm2]

/-- Concrete non-extractable key for the session-cache witnesses. -/
def kW : CryptoKeyData :=
  derivePbkdf2Key "pw" [1, 2] 210000 "SHA-512" 256 false

/-- Concrete keys-only manager for the C6 witness. -/
def mKeysOnly : SessionManager :=
  { entries := [], timers := [], mode := SessionMode.keysOnly,
    sessionTimeoutMs := 0, timedWindowMs := 60000 }

/-- Concrete no-storage manager for the C6 witness. -/
def mNoStorage : SessionManager :=
  { entries := [], timers := [], mode := SessionMode.noStorage,
    sessionTimeoutMs := 0, timedWindowMs := 60000 }

/-- Witness for C6 at concrete managers, paths and key. -/
theorem C6_keys_only_no_storage_witness :
    (mKeysOnly.put 0 "A.txt" "pw" "h" (some kW)).entries =
      mapSet mKeysOnly.entries "A.txt"
        { password := none, hint := "h", key := some kW, expiry := none } ∧
    (mKeysOnly.put 0 "A.txt" "pw" "h" none).entries = mKeysOnly.entries ∧
    mKeysOnly.getPassword 0 "B.txt" = none ∧
    (mKeysOnly.put 0 "A.txt" "pw" "h" (some kW)).getPassword 1 "B.txt" =
      none ∧
    (mKeysOnly.put 0 "A.txt" "pw" "h" (some kW)).getKey 1 "A.txt" =
      some kW ∧
    (mNoStorage.put 0 "A.txt" "pw" "h" (some kW)).entries =
      mNoStorage.entries :=
  C6_keys_only_no_storage mKeysOnly mNoStorage 0 1 "A.txt" "pw" "h" "B.txt"
    kW rfl rfl

/-! ## Claim C8 -/

/-- C8: expiry is enforced passively at every lookup — `getKey` and
`getPassword` re-check the timestamp against the current time, returning
`none` for entries whose expiry lies in the past even though the entry is
still present in the map; and in timed-password mode a freshly `put`
password is returned immediately and refused after the window elapses. -/
theorem C8_passive_expiry (m : SessionManager) (t : Nat)
    (path pw hint : String)
    (hmode : m.mode = SessionMode.timedPassword)
    (hempty : m.entries = []) :
    (∀ (m2 : SessionManager) (now : Nat) (p : String) (e : SessionEntry)
        (texp : Nat), mapGet m2.entries p = some e → e.expiry = some texp →
        now > texp → m2.getKey now p = none) ∧
    (∀ (m2 : SessionManager) (now : Nat) (p : String),
        (∀ pe ∈ m2.entries, ∃ texp, pe.2.expiry = some texp ∧ now > texp) →
        m2.getPassword now p = none) ∧
    (m.put t path pw hint none).getPassword t path = some pw ∧
    (∀ t2 : Nat, t2 > t + m.timedWindowMs →
        (m.put t path pw hint none).getPassword t2 path = none) := by
  have hput : (m.put t path pw hint none).entries =
      [(path, ({ password := some pw, hint := hint, key := none, expiry := some (t + m.timedWindowMs) } : SessionEntry))] := by
    simp [SessionManager.put, SessionManager.clearTimer,
      SessionManager.scheduleExpiry, hmode, hempty, mapSet]
  have hputmode : (m.put t path pw hint none).mode =
      SessionMode.timedPassword := by
    simp [SessionManager.put, SessionManager.clearTimer,
      SessionManager.scheduleExpiry, hmode]
  have hcond2 : ¬((m.put t path pw hint none).mode =
      SessionMode.noStorage ∨
      (m.put t path pw hint none).mode = SessionMode.keysOnly) := by
    rw [hputmode]
    simp
  refine ⟨?_, ?_, ?_, ?_⟩
  · intro m2 now p e texp hmg hexp hgt
    simp [SessionManager.getKey, hmg, isExpired, hexp, hgt]
  · intro m2 now p hall
    by_cases hm2 : m2.mode = SessionMode.noStorage ∨
        m2.mode = SessionMode.keysOnly
    · rw [SessionManager.getPassword, if_pos hm2]
    · have hnoexact : ∀ e, mapGet m2.entries p = some e →
          (e.password.isSome && !(isExpired now e)) = false := by
        intro e he
        obtain ⟨texp, hexp, hgt⟩ := hall (p, e) (mapGet_mem m2.entries p e he)
        have hexp2 : e.expiry = some texp := hexp
        simp [isExpired, hexp2, hgt, decide_eq_true_eq]
      rw [getPassword_fallback_eq m2 now p hm2 hnoexact]
      have hf : m2.entries.find? (fun pe =>
          pe.2.password.isSome && !(isExpired now pe.2)) = none := by
        rw [List.find?_eq_none]
        intro pe hpe
        obtain ⟨texp, hexp, hgt⟩ := hall pe hpe
        simp [isExpired, hexp, hgt]
      rw [hf]
      rfl
  · have hmg : mapGet (m.put t path pw hint none).entries path =
        some ({ password := some pw, hint := hint, key := none, expiry := some (t + m.timedWindowMs) } : SessionEntry) := by
      rw [hput]
      simp [mapGet]
    rw [getPassword_exact (m.put t path pw hint none) t path _ hcond2 hmg
      (by simp [isExpired])]
  · intro t2 ht2
    have hnoexact : ∀ e, mapGet (m.put t path pw hint none).entries path =
        some e → (e.password.isSome && !(isExpired t2 e)) = false := by
      intro e he
      rw [hput] at he
      simp [mapGet] at he
      subst he
      simp [isExpired, ht2]
    rw [getPassword_fallback_eq (m.put t path pw hint none) t2 path hcond2
      hnoexact, hput]
    simp [List.find?, isExpired, ht2]

/-- Concrete timed-password manager (1-second window) for the C8 witness. -/
def mTimed : SessionManager :=
  { entries := [], timers := [], mode := SessionMode.timedPassword,
    sessionTimeoutMs := 0, timedWindowMs := 1000 }

/-- Witness for C8: the password is returned immediately after `put` and
refused one lookup after the 1-second window has elapsed. -/
theorem C8_passive_expiry_witness :
    (mTimed.put 5 "n.txt" "pw" "h" none).getPassword 5 "n.txt" =
      some "pw" ∧
    (mTimed.put 5 "n.txt" "pw" "h" none).getPassword 1006 "n.txt" = none :=
  ⟨(C8_passive_expiry mTimed 5 "n.txt" "pw" "h" rfl rfl).2.2.1,
   (C8_passive_expiry mTimed 5 "n.txt" "pw" "h" rfl rfl).2.2.2 1006
     (by decide)⟩

/-! ## Claim C9 -/

/-- C9: `handleRename` moves the entry stored under the old path to the new
path without changing any of its fields, moves its pending timer unchanged,
leaves nothing under the old path, and `getPassword` on the new path
returns the original (unexpired) password without re-entry. -/
theorem C9_handle_rename (m : SessionManager) (oldPath newPath : String)
    (e : SessionEntry) (hne : oldPath ≠ newPath)
    (hmode : m.mode = SessionMode.sessionPassword ∨
      m.mode = SessionMode.timedPassword)
    (hold : mapGet m.entries oldPath = some e) :
    mapGet (m.handleRename oldPath newPath).entries newPath = some e ∧
    mapGet (m.handleRename oldPath newPath).entries oldPath = none ∧
    (∀ (now : Nat) (pw : String), e.password = some pw →
      isExpired now e = false →
      (m.handleRename oldPath newPath).getPassword now newPath = some pw) ∧
    (∀ tv : Nat, mapGet m.timers oldPath = some tv →
      mapGet (m.handleRename oldPath newPath).timers newPath = some tv ∧
      mapGet (m.handleRename oldPath newPath).timers oldPath = none) := by
  have hentries : (m.handleRename oldPath newPath).entries =
      mapSet (mapDelete m.entries oldPath) newPath e := by
    simp [SessionManager.handleRename, hold]
  have hmode2 : (m.handleRename oldPath newPath).mode = m.mode := by
    simp [SessionManager.handleRename, hold]
  refine ⟨?_, ?_, ?_, ?_⟩
  · rw [hentries]
    exact mapGet_mapSet_self _ _ _
  · rw [hentries, mapGet_mapSet_ne _ _ _ _ hne, mapGet_mapDelete_self]
  · intro now pw hpw hexp
    have hcond : ¬((m.handleRename oldPath newPath).mode =
        SessionMode.noStorage ∨
        (m.handleRename oldPath newPath).mode = SessionMode.keysOnly) := by
      rw [hmode2]
      exact mode_cond_false m hmode
    have heq := getPassword_exact (m.handleRename oldPath newPath) now
      newPath e hcond
      (by rw [hentries]; exact mapGet_mapSet_self _ _ _)
      (by simp [hpw, hexp])
    rw [heq, hpw]
  · intro tv htv
    have htimers : (m.handleRename oldPath newPath).timers =
        mapSet (mapDelete m.timers oldPath) newPath tv := by
      simp [SessionManager.handleRename, hold, htv]
    refine ⟨?_, ?_⟩
    · rw [htimers]
      exact mapGet_mapSet_self _ _ _
    · rw [htimers, mapGet_mapSet_ne _ _ _ _ hne, mapGet_mapDelete_self]

/-- Concrete entry for the C9 witness: cached password with a pending
expiry timestamp. -/
def eRename : SessionEntry :=
  { password := some "pw", hint := "h", key := none, expiry := some 50 }

/-- Concrete session-password manager for the C9 witness, with a pending
timer under the old path. -/
def mRename : SessionManager :=
  { entries := [("old.txt", eRename)], timers := [("old.txt", 99)],
    mode := SessionMode.sessionPassword, sessionTimeoutMs := 0,
    timedWindowMs := 60000 }

/-- Witness for C9 at a concrete rename. -/
theorem C9_handle_rename_witness :
    mapGet (mRename.handleRename "old.txt" "new.txt").entries "new.txt" =
      some eRename ∧
    mapGet (mRename.handleRename "old.txt" "new.txt").entries "old.txt" =
      none ∧
    (mRename.handleRename "old.txt" "new.txt").getPassword 10 "new.txt" =
      some "pw" ∧
    mapGet (mRename.handleRename "old.txt" "new.txt").timers "new.txt" =
      some 99 ∧
    mapGet (mRename.handleRename "old.txt" "new.txt").timers "old.txt" =
      none :=
  ⟨(C9_handle_rename mRename "old.txt" "new.txt" eRename (by decide)
      (Or.inl rfl) rfl).1,
   (C9_handle_rename mRename "old.txt" "new.txt" eRename (by decide)
      (Or.inl rfl) rfl).2.1,
   (C9_handle_rename mRename "old.txt" "new.txt" eRename (by decide)
      (Or.inl rfl) rfl).2.2.1 10 "pw" rfl rfl,
   ((C9_handle_rename mRename "old.txt" "new.txt" eRename (by decide)
      (Or.inl rfl) rfl).2.2.2 99 rfl).1,
   ((C9_handle_rename mRename "old.txt" "new.txt" eRename (by decide)
      (Or.inl rfl) rfl).2.2.2 99 rfl).2⟩

end AFE